import Mathlib

/-!
Shallow embedding of `app.py` from the Transcribe-MP3 repository.

The embedding models:
* the size constants (`OPENAI_API_FILE_LIMIT_BYTES`, `TARGET_CHUNK_SIZE_BYTES`);
* the retrying transcription helper `transcribe_audio_chunk` (the external
  API is abstracted as a function from the attempt number to an outcome);
* pydub's `make_chunks` fixed-duration slicing (an `AudioSegment` is modelled
  as the list of its millisecond frames, Python slicing as take/drop);
* the chunk loop of the Streamlit handler (size guard, sentinel strings,
  truthiness checks, space-join over `filter(None, ...)`);
* the whole `Transcribe Audio` button handler as `run`, instrumented with the
  list of byte-buffer sizes actually submitted to the transcription client.
-/

namespace TranscribeMP3

/-- Outcome of one attempt of the external transcription API call:
either a transcript text or a raised exception. -/
inductive ApiResult where
  | ok (text : String)
  | err
deriving DecidableEq

/-- `OPENAI_API_FILE_LIMIT_MB = 25` from app.py. -/
def OPENAI_API_FILE_LIMIT_MB : Nat := 25

/-- `OPENAI_API_FILE_LIMIT_BYTES = OPENAI_API_FILE_LIMIT_MB * 1024 * 1024`. -/
def OPENAI_API_FILE_LIMIT_BYTES : Nat := OPENAI_API_FILE_LIMIT_MB * 1024 * 1024

/-- `TARGET_CHUNK_SIZE_BYTES = (OPENAI_API_FILE_LIMIT_MB - 1) * 1024 * 1024`. -/
def TARGET_CHUNK_SIZE_BYTES : Nat := (OPENAI_API_FILE_LIMIT_MB - 1) * 1024 * 1024

/-- `chunk_length_ms = 10 * 60 * 1000` from the chunked branch of app.py. -/
def chunk_length_ms : Nat := 10 * 60 * 1000

/-- `transcribe_audio_chunk` from app.py, with the network abstracted:
`api n` is what `client.audio.transcriptions.create` does on the n-th
attempt.  On an exception the function retries while `attempt < max_attempts`
and returns `None` (here `none`) after the last attempt. -/
def transcribe_audio_chunk (api : Nat → ApiResult) (attempt max_attempts : Nat) :
    Option String :=
  match api attempt with
  | ApiResult.ok t => some t
  | ApiResult.err =>
      if attempt < max_attempts then
        transcribe_audio_chunk api (attempt + 1) max_attempts
      else
        none
termination_by max_attempts - attempt
decreasing_by omega

/-- Number of attempts (API invocations) performed by
`transcribe_audio_chunk`, following the same recursion. -/
def transcribe_attempts (api : Nat → ApiResult) (attempt max_attempts : Nat) :
    Nat :=
  match api attempt with
  | ApiResult.ok _ => 1
  | ApiResult.err =>
      if attempt < max_attempts then
        1 + transcribe_attempts api (attempt + 1) max_attempts
      else
        1
termination_by max_attempts - attempt
decreasing_by omega

/-- A rewindable in-memory byte buffer (Python `BytesIO` / uploaded file):
its bytes and the current read position. -/
structure ByteBuffer where
  data : List Nat
  pos : Nat
deriving DecidableEq

/-- `buffer.seek(0)`: reset the read position to the start. -/
def seek0 (b : ByteBuffer) : ByteBuffer := { b with pos := 0 }

/-- Reading the buffer out (as the API upload does): yields the bytes from
the current position to the end and leaves the position at the end. -/
def readAll (b : ByteBuffer) : List Nat × ByteBuffer :=
  (b.data.drop b.pos, { b with pos := b.data.length })

/-- `transcribe_audio_chunk` with the buffer state made explicit: each
attempt first does `audio_chunk_bytesio.seek(0)` and then the API call reads
the buffer out.  Returns the result, the final buffer, and the list of byte
sequences read by the successive attempts (first attempt first). -/
def transcribe_stateful (api : Nat → ApiResult) (b : ByteBuffer)
    (attempt max_attempts : Nat) : Option String × ByteBuffer × List (List Nat) :=
  let b0 := seek0 b
  let r := readAll b0
  match api attempt with
  | ApiResult.ok t => (some t, r.2, [r.1])
  | ApiResult.err =>
      if attempt < max_attempts then
        let rest := transcribe_stateful api r.2 (attempt + 1) max_attempts
        (rest.1, rest.2.1, r.1 :: rest.2.2)
      else
        (none, r.2, [r.1])
termination_by max_attempts - attempt
decreasing_by omega

/-- The sentinel placeholder `f"[ERROR: CHUNK {i+1} TOO LARGE TO PROCESS]"`
appended when an exported chunk exceeds the API byte limit (`i` is the
0-based loop index). -/
def sentinelTooLarge (i : Nat) : String :=
  "[ERROR: CHUNK " ++ toString (i + 1) ++ " TOO LARGE TO PROCESS]"

/-- The sentinel placeholder `f"[ERROR: CHUNK {i+1} FAILED TRANSCRIPTION]"`
appended when a chunk's transcription result is falsy. -/
def sentinelFailed (i : Nat) : String :=
  "[ERROR: CHUNK " ++ toString (i + 1) ++ " FAILED TRANSCRIPTION]"

/-- One chunk as presented to the loop body: the byte size of its mp3 export
(`chunk_io.getbuffer().nbytes`) and the behaviour of the external API on its
successive transcription attempts. -/
structure ChunkTask where
  nbytes : Nat
  api : Nat → ApiResult

/-- Placeholder chunk used as the out-of-range default of `List.getD`. -/
def dummyChunk : ChunkTask := ⟨0, fun _ => ApiResult.err⟩

/-- Body of the `for i, chunk in enumerate(audio_chunks)` loop: the string
appended to `transcriptions_list` for chunk `i`, and the byte sizes submitted
to the transcription client for it (`[]` when the chunk is skipped as too
large, `[nbytes]` when it is submitted).  Python truthiness of the result
string makes `some ""` land in the sentinel branch. -/
def chunkStep (i : Nat) (c : ChunkTask) : String × List Nat :=
  if OPENAI_API_FILE_LIMIT_BYTES < c.nbytes then
    (sentinelTooLarge i, [])
  else
    match transcribe_audio_chunk c.api 1 3 with
    | some t => if t = "" then (sentinelFailed i, [c.nbytes]) else (t, [c.nbytes])
    | none => (sentinelFailed i, [c.nbytes])

/-- The chunk loop from index `i` on: the strings appended to
`transcriptions_list`, in loop order. -/
def chunkLoopFrom (i : Nat) : List ChunkTask → List String
  | [] => []
  | c :: rest => (chunkStep i c).1 :: chunkLoopFrom (i + 1) rest

/-- `transcriptions_list` after the loop over all chunks. -/
def transcriptions_list (chunks : List ChunkTask) : List String :=
  chunkLoopFrom 0 chunks

/-- Byte sizes submitted to the transcription client by the chunk loop from
index `i` on, in submission order. -/
def submittedFrom (i : Nat) : List ChunkTask → List Nat
  | [] => []
  | c :: rest => (chunkStep i c).2 ++ submittedFrom (i + 1) rest

/-- `full_transcription = " ".join(filter(None, transcriptions_list))`:
`filter(None, ...)` drops exactly the falsy (empty) strings. -/
def full_transcription_chunked (chunks : List ChunkTask) : String :=
  String.intercalate " " ((transcriptions_list chunks).filter (fun s => s ≠ ""))

/-- The uploaded file as the button handler sees it: its declared byte size,
the API behaviour for the direct whole-file call, and the chunk tasks that
materialise if the chunked path is taken. -/
structure UploadedFile where
  size : Nat
  api : Nat → ApiResult
  chunks : List ChunkTask

/-- Terminal outcome of the handler: a displayed/downloadable transcript, or
the `st.error("Transcription failed or resulted in empty text. ...")`
branch taken when `full_transcription` is falsy. -/
inductive RunResult where
  | success (transcript : String)
  | errorEmpty
deriving DecidableEq

/-- Observable trace of one run: the value of `full_transcription` at the
end, the terminal outcome, and the byte sizes of every buffer submitted to
the transcription client, in submission order. -/
structure RunTrace where
  final : String
  result : RunResult
  submitted : List Nat
deriving DecidableEq

/-- The `Transcribe Audio` button handler of app.py: direct path when
`uploaded_file.size <= OPENAI_API_FILE_LIMIT_BYTES` (one client call on the
whole file, `full_transcription` stays `""` on a falsy result), chunked path
otherwise; finally `full_transcription` is displayed if truthy and the error
branch is taken if not. -/
def run (f : UploadedFile) : RunTrace :=
  let fullsub :=
    if f.size ≤ OPENAI_API_FILE_LIMIT_BYTES then
      (match transcribe_audio_chunk f.api 1 3 with
       | some t => if t = "" then "" else t
       | none => "",
       [f.size])
    else
      (full_transcription_chunked f.chunks, submittedFrom 0 f.chunks)
  { final := fullsub.1
    result := if fullsub.1 = "" then RunResult.errorEmpty else RunResult.success fullsub.1
    submitted := fullsub.2 }

/-- Ceiling division `ceil(a / b)` on naturals, as Python's
`math.ceil(len(audio) / float(chunk_length))` computes it for the sizes at
hand. -/
def cdiv (a b : Nat) : Nat := (a + b - 1) / b

/-- Python slicing `xs[start:stop]` on a list. -/
def pySlice (xs : List α) (start stop : Nat) : List α :=
  (xs.take stop).drop start

/-- pydub's `make_chunks(audio_segment, chunk_length)`: an `AudioSegment` is
modelled as the list of its millisecond frames;
`make_chunks` is `[audio_segment[i * chunk_length:(i + 1) * chunk_length]
for i in range(int(ceil(len(audio_segment) / float(chunk_length))))]`. -/
def make_chunks (audio : List α) (chunk_length : Nat) : List (List α) :=
  (List.range (cdiv audio.length chunk_length)).map
    (fun i => pySlice audio (i * chunk_length) ((i + 1) * chunk_length))

/-! ### Helper lemmas -/

theorem transcribe_ok {api : Nat → ApiResult} {a m : Nat} {t : String}
    (h : api a = ApiResult.ok t) :
    transcribe_audio_chunk api a m = some t := by
  rw [transcribe_audio_chunk, h]

theorem transcribe_err_retry {api : Nat → ApiResult} {a m : Nat}
    (h : api a = ApiResult.err) (hlt : a < m) :
    transcribe_audio_chunk api a m = transcribe_audio_chunk api (a + 1) m := by
  rw [transcribe_audio_chunk, h]
  simp [hlt]

theorem transcribe_err_last {api : Nat → ApiResult} {a m : Nat}
    (h : api a = ApiResult.err) (hge : ¬ a < m) :
    transcribe_audio_chunk api a m = none := by
  rw [transcribe_audio_chunk, h]
  simp [hge]

theorem transcribe_all_err {api : Nat → ApiResult}
    (h : ∀ n, api n = ApiResult.err) (a m : Nat) :
    transcribe_audio_chunk api a m = none := by
  by_cases hlt : a < m
  · rw [transcribe_err_retry (h a) hlt]
    exact transcribe_all_err h (a + 1) m
  · exact transcribe_err_last (h a) hlt
termination_by m - a
decreasing_by omega

theorem attempts_ok {api : Nat → ApiResult} {a m : Nat} {t : String}
    (h : api a = ApiResult.ok t) :
    transcribe_attempts api a m = 1 := by
  rw [transcribe_attempts, h]

theorem attempts_err_retry {api : Nat → ApiResult} {a m : Nat}
    (h : api a = ApiResult.err) (hlt : a < m) :
    transcribe_attempts api a m = 1 + transcribe_attempts api (a + 1) m := by
  rw [transcribe_attempts, h]
  simp [hlt]

theorem attempts_err_last {api : Nat → ApiResult} {a m : Nat}
    (h : api a = ApiResult.err) (hge : ¬ a < m) :
    transcribe_attempts api a m = 1 := by
  rw [transcribe_attempts, h]
  simp [hge]

theorem attempts_le (api : Nat → ApiResult) (a m : Nat) :
    transcribe_attempts api a m ≤ m - a + 1 := by
  by_cases hok : ∃ t, api a = ApiResult.ok t
  · obtain ⟨t, ht⟩ := hok
    rw [attempts_ok ht]
    omega
  · have herr : api a = ApiResult.err := by
      cases hv : api a with
      | ok t => exact absurd ⟨t, hv⟩ hok
      | err => rfl
    by_cases hlt : a < m
    · rw [attempts_err_retry herr hlt]
      have := attempts_le api (a + 1) m
      omega
    · rw [attempts_err_last herr hlt]
      omega
termination_by m - a
decreasing_by omega

theorem chunkLoopFrom_length (i : Nat) (l : List ChunkTask) :
    (chunkLoopFrom i l).length = l.length := by
  induction l generalizing i with
  | nil => rfl
  | cons c rest ih => simp [chunkLoopFrom, ih]

theorem chunkLoopFrom_getD (i j : Nat) (l : List ChunkTask) (hj : j < l.length) :
    (chunkLoopFrom i l).getD j "" = (chunkStep (i + j) (l.getD j dummyChunk)).1 := by
  induction l generalizing i j with
  | nil => simp at hj
  | cons c rest ih =>
      cases j with
      | zero => simp [chunkLoopFrom]
      | succ j =>
          have hj := Nat.lt_of_succ_lt_succ (by simpa using hj)
          have := ih (i + 1) j hj
          simp only [chunkLoopFrom, List.getD_cons_succ]
          rw [this]
          ring_nf

/-- Every string the loop appends is non-empty: sentinels start with a
bracket and a transcription text is only appended when it is truthy. -/
theorem chunkStep_ne_empty (i : Nat) (c : ChunkTask) : (chunkStep i c).1 ≠ "" := by
  have hlen : ∀ s q : String, (s ++ q).length = s.length + q.length :=
    fun s q => String.length_append s q
  unfold chunkStep
  by_cases hsz : OPENAI_API_FILE_LIMIT_BYTES < c.nbytes
  · simp only [hsz, if_true]
    intro h
    have := congrArg String.length h
    rw [sentinelTooLarge, hlen, hlen] at this
    simp at this
    exact absurd this.1.1 (by decide)
  · simp only [hsz, if_false]
    cases htr : transcribe_audio_chunk c.api 1 3 with
    | none =>
        simp only []
        intro h
        have := congrArg String.length h
        rw [sentinelFailed, hlen, hlen] at this
        simp at this
        exact absurd this.1.1 (by decide)
    | some t =>
        by_cases ht : t = ""
        · simp only [ht, if_true]
          intro h
          have := congrArg String.length h
          rw [sentinelFailed, hlen, hlen] at this
          simp at this
          exact absurd this.1.1 (by decide)
        · simp only [ht, if_false]
          exact ht

theorem transcriptions_ne_empty (chunks : List ChunkTask) :
    ∀ s ∈ transcriptions_list chunks, s ≠ "" := by
  unfold transcriptions_list
  generalize 0 = i
  induction chunks generalizing i with
  | nil => simp [chunkLoopFrom]
  | cons c rest ih =>
      intro s hs
      simp only [chunkLoopFrom, List.mem_cons] at hs
      rcases hs with h | h
      · exact h ▸ chunkStep_ne_empty i c
      · exact ih (i + 1) s h

theorem cdiv_zero_left {c : Nat} (hc : 0 < c) : cdiv 0 c = 0 := by
  unfold cdiv
  exact Nat.div_eq_of_lt (by omega)

theorem cdiv_succ {c D : Nat} (hc : 0 < c) (hD : 0 < D) :
    cdiv D c = cdiv (D - c) c + 1 := by
  unfold cdiv
  by_cases hcD : D ≤ c
  · have h1 : D + c - 1 = (D - 1) + c := by omega
    have h2 : D - c = 0 := by omega
    rw [h1, h2, Nat.add_div_right _ hc]
    have : (D - 1) / c = 0 := Nat.div_eq_of_lt (by omega)
    rw [this]
    have : (0 + c - 1) / c = 0 := Nat.div_eq_of_lt (by omega)
    rw [this]
  · have h1 : D + c - 1 = (D - c + c - 1) + c := by omega
    rw [h1, Nat.add_div_right _ hc]

theorem make_chunks_nil {c : Nat} (hc : 0 < c) :
    make_chunks ([] : List α) c = [] := by
  unfold make_chunks
  rw [List.length_nil, cdiv_zero_left hc]
  rfl

theorem make_chunks_cons {c : Nat} (hc : 0 < c) (l : List α) (hl : l ≠ []) :
    make_chunks l c = l.take c :: make_chunks (l.drop c) c := by
  unfold make_chunks
  have hD : 0 < l.length := List.length_pos.mpr hl
  rw [cdiv_succ hc hD, List.range_succ_eq_map, List.map_cons, List.map_map]
  have hhead : pySlice l (0 * c) ((0 + 1) * c) = l.take c := by
    simp [pySlice]
  rw [hhead, List.length_drop]
  congr 1
  apply List.map_congr_left
  intro i _
  show pySlice l ((i + 1) * c) ((i + 1 + 1) * c) =
      pySlice (l.drop c) (i * c) ((i + 1) * c)
  unfold pySlice
  rw [List.drop_take, List.drop_take, List.drop_drop]
  have h1 : (i + 1 + 1) * c - (i + 1) * c = c := by ring_nf; omega
  have h2 : (i + 1) * c - i * c = c := by ring_nf; omega
  have h3 : c + i * c = (i + 1) * c := by ring
  rw [h1, h2, h3]

theorem make_chunks_length {c : Nat} (l : List α) :
    (make_chunks l c).length = cdiv l.length c := by
  unfold make_chunks
  rw [List.length_map, List.length_range]

theorem make_chunks_join {c : Nat} (hc : 0 < c) (l : List α) :
    (make_chunks l c).flatten = l := by
  by_cases hl : l = []
  · subst hl
    rw [make_chunks_nil hc]
    rfl
  · rw [make_chunks_cons hc l hl, List.flatten_cons,
      make_chunks_join hc (l.drop c), List.take_append_drop]
termination_by l.length
decreasing_by
  have : 0 < l.length := List.length_pos.mpr hl
  rw [List.length_drop]
  omega

theorem make_chunks_chunk_le {c : Nat} (l : List α) :
    ∀ ch ∈ make_chunks l c, ch.length ≤ c := by
  intro ch hch
  unfold make_chunks at hch
  rw [List.mem_map] at hch
  obtain ⟨i, _, rfl⟩ := hch
  unfold pySlice
  rw [List.length_drop, List.length_take]
  have : (i + 1) * c = i * c + c := by ring
  omega

theorem make_chunks_full_before_last {c : Nat} (hc : 0 < c) (l : List α)
    (i : Nat) (hi : i + 1 < (make_chunks l c).length) :
    ((make_chunks l c).getD i []).length = c := by
  rw [make_chunks_length] at hi
  have hfit : (i + 1) * c + 1 ≤ l.length := by
    have h2 : i + 2 ≤ (l.length + c - 1) / c := hi
    have := (Nat.le_div_iff_mul_le hc).mp h2
    have hexp : (i + 2) * c = (i + 1) * c + c := by ring
    omega
  have hilt : i < (make_chunks l c).length := by
    rw [make_chunks_length]
    omega
  rw [List.getD_eq_getElem _ _ hilt]
  unfold make_chunks
  rw [List.getElem_map, List.getElem_range]
  unfold pySlice
  rw [List.length_drop, List.length_take]
  have : (i + 1) * c = i * c + c := by ring
  omega

theorem make_chunks_single {c : Nat} (hc : 0 < c) (l : List α)
    (h1 : 0 < l.length) (h2 : l.length ≤ c) :
    make_chunks l c = [l] := by
  have hl : l ≠ [] := List.length_pos.mp h1
  rw [make_chunks_cons hc l hl]
  have hdrop : l.drop c = [] := List.drop_eq_nil_of_le h2
  rw [hdrop, make_chunks_nil hc, List.take_of_length_le h2]

/-- What the loop body submits: nothing when the chunk is over the API byte
limit, the chunk's bytes otherwise (whatever the API then answers). -/
theorem chunkStep_submitted (i : Nat) (c : ChunkTask) :
    (chunkStep i c).2 =
      if OPENAI_API_FILE_LIMIT_BYTES < c.nbytes then [] else [c.nbytes] := by
  unfold chunkStep
  by_cases hsz : OPENAI_API_FILE_LIMIT_BYTES < c.nbytes
  · simp [hsz]
  · rw [if_neg hsz, if_neg hsz]
    rcases transcribe_audio_chunk c.api 1 3 with _ | t
    · rfl
    · by_cases ht : t = "" <;> simp [ht]

theorem submittedFrom_le (i : Nat) (l : List ChunkTask) :
    ∀ b ∈ submittedFrom i l, b ≤ OPENAI_API_FILE_LIMIT_BYTES := by
  induction l generalizing i with
  | nil => simp [submittedFrom]
  | cons c rest ih =>
      intro b hb
      simp only [submittedFrom, List.mem_append] at hb
      rcases hb with h | h
      · rw [chunkStep_submitted] at h
        by_cases hsz : OPENAI_API_FILE_LIMIT_BYTES < c.nbytes
        · rw [if_pos hsz] at h
          simp at h
        · rw [if_neg hsz] at h
          simp at h
          omega
      · exact ih (i + 1) b h

theorem intercalate_go_length (sep : String) (l : List String) (acc : String) :
    acc.length ≤ (String.intercalate.go acc sep l).length := by
  induction l generalizing acc with
  | nil => simp [String.intercalate.go]
  | cons a as ih =>
      calc acc.length ≤ (acc ++ sep ++ a).length := by
            rw [String.length_append, String.length_append]
            omega
        _ ≤ _ := by
            rw [String.intercalate.go]
            exact ih (acc ++ sep ++ a)

theorem string_length_zero {s : String} (h : s.length = 0) : s = "" := by
  cases s with
  | mk data =>
      cases data with
      | nil => rfl
      | cons a as => simp [String.length] at h

theorem intercalate_cons_ne_empty (sep a : String) (l : List String)
    (ha : a ≠ "") : String.intercalate sep (a :: l) ≠ "" := by
  intro h
  have h1 : a.length ≤ (String.intercalate sep (a :: l)).length := by
    rw [String.intercalate]
    exact intercalate_go_length sep l a
  rw [h] at h1
  simp at h1
  exact ha (string_length_zero (by omega))

/-- A non-empty chunk list always yields a non-empty joined transcript:
every appended entry is truthy, so `filter(None, ...)` keeps them all. -/
theorem full_transcription_chunked_ne_empty (chunks : List ChunkTask)
    (h : chunks ≠ []) : full_transcription_chunked chunks ≠ "" := by
  unfold full_transcription_chunked
  have hkeep : (transcriptions_list chunks).filter (fun s => s ≠ "") =
      transcriptions_list chunks := by
    rw [List.filter_eq_self]
    intro s hs
    simpa using transcriptions_ne_empty chunks s hs
  rw [hkeep]
  rcases chunks with _ | ⟨c, rest⟩
  · exact absurd rfl h
  · show String.intercalate " " (chunkLoopFrom 0 (c :: rest)) ≠ ""
    rw [chunkLoopFrom]
    exact intercalate_cons_ne_empty " " _ _ (chunkStep_ne_empty 0 c)

/-- The filter in the join never drops anything the loop appended. -/
theorem full_transcription_chunked_eq (chunks : List ChunkTask) :
    full_transcription_chunked chunks =
      String.intercalate " " (transcriptions_list chunks) := by
  unfold full_transcription_chunked
  congr 1
  rw [List.filter_eq_self]
  intro s hs
  simpa using transcriptions_ne_empty chunks s hs

/-! ### Concrete fixtures used by counterexamples and witnesses -/

/-- An API behaviour that succeeds immediately with `"hello"`. -/
def apiOkHello : Nat → ApiResult := fun _ => ApiResult.ok "hello"

/-- An API behaviour that raises on every attempt. -/
def apiAlwaysErr : Nat → ApiResult := fun _ => ApiResult.err

/-- An API behaviour that raises on the first two attempts and succeeds with
`"hi"` on the third. -/
def apiFailTwice : Nat → ApiResult :=
  fun n => if n ≤ 2 then ApiResult.err else ApiResult.ok "hi"

/-- An API behaviour that succeeds immediately with the empty string. -/
def apiOkEmpty : Nat → ApiResult := fun _ => ApiResult.ok ""

/-- A small chunk whose transcription succeeds with `"A"`. -/
def chunkA : ChunkTask := ⟨100, fun _ => ApiResult.ok "A"⟩

/-- A small chunk whose transcription permanently fails. -/
def chunkB : ChunkTask := ⟨100, apiAlwaysErr⟩

/-- A small chunk whose transcription succeeds with `"C"`. -/
def chunkC : ChunkTask := ⟨100, fun _ => ApiResult.ok "C"⟩

/-! ### Claim theorems -/

/-- C2: a file whose declared size is at most `OPENAI_API_FILE_LIMIT_BYTES`
(the boundary included) takes the direct path: exactly one client call is
made, on the whole file, and a truthy transcription text is returned
verbatim as the final transcript. -/
theorem direct_path_single_call (f : UploadedFile)
    (h : f.size ≤ OPENAI_API_FILE_LIMIT_BYTES) :
    (run f).submitted = [f.size] ∧
    (∀ t : String, transcribe_audio_chunk f.api 1 3 = some t → t ≠ "" →
      (run f).final = t ∧ (run f).result = RunResult.success t) := by
  constructor
  · simp [run, h]
  · intro t htr hne
    constructor
    · simp [run, h, htr, hne]
    · simp [run, h, htr, hne]

/-- Witness for `direct_path_single_call` at a 100-byte file whose API call
succeeds with `"hello"`. -/
theorem direct_path_single_call_witness :
    (run ⟨100, apiOkHello, []⟩).submitted = [100] ∧
    (run ⟨100, apiOkHello, []⟩).final = "hello" := by
  have h := direct_path_single_call ⟨100, apiOkHello, []⟩ (by decide)
  exact ⟨h.1, (h.2 "hello" (transcribe_ok rfl) (by decide)).1⟩

/-- C3: pydub `make_chunks` on decoded audio of positive duration `D`
partitions it into `ceil(D / chunk_length_ms)` consecutive, non-overlapping
slices in original order (their concatenation is the original audio), every
slice is at most `chunk_length_ms` long, every slice before the last is
exactly `chunk_length_ms` long, and audio no longer than one slice yields a
single-element sequence. -/
theorem chunking_partition (audio : List Nat) (hD : 0 < audio.length) :
    (make_chunks audio chunk_length_ms).length = cdiv audio.length chunk_length_ms ∧
    (make_chunks audio chunk_length_ms).flatten = audio ∧
    (∀ ch ∈ make_chunks audio chunk_length_ms, ch.length ≤ chunk_length_ms) ∧
    (∀ i, i + 1 < (make_chunks audio chunk_length_ms).length →
      ((make_chunks audio chunk_length_ms).getD i []).length = chunk_length_ms) ∧
    (audio.length ≤ chunk_length_ms → make_chunks audio chunk_length_ms = [audio]) := by
  have hc : 0 < chunk_length_ms := by decide
  exact ⟨make_chunks_length audio, make_chunks_join hc audio,
    make_chunks_chunk_le audio,
    fun i hi => make_chunks_full_before_last hc audio i hi,
    fun hle => make_chunks_single hc audio hD hle⟩

/-- Witness for `chunking_partition` at a 3 ms audio buffer: one chunk whose
concatenation is the original. -/
theorem chunking_partition_witness :
    (0 < ([5, 6, 7] : List Nat).length) ∧
    (make_chunks ([5, 6, 7] : List Nat) chunk_length_ms).flatten = [5, 6, 7] ∧
    make_chunks ([5, 6, 7] : List Nat) chunk_length_ms = [[5, 6, 7]] := by
  have h := chunking_partition [5, 6, 7] (by decide)
  exact ⟨by decide, h.2.1, h.2.2.2.2 (by decide)⟩

/-- C4: a transcription call that raises on the first two attempts and
succeeds on the third returns the successful text having performed exactly 3
attempts; retries are immediate, do not distinguish error kinds (there is a
single exception case), and any call performs at most `max_attempts = 3`
attempts. -/
theorem retry_three_attempts (api : Nat → ApiResult) (t : String)
    (h1 : api 1 = ApiResult.err) (h2 : api 2 = ApiResult.err)
    (h3 : api 3 = ApiResult.ok t) :
    transcribe_audio_chunk api 1 3 = some t ∧
    transcribe_attempts api 1 3 = 3 ∧
    (∀ g : Nat → ApiResult, transcribe_attempts g 1 3 ≤ 3) := by
  refine ⟨?_, ?_, ?_⟩
  · rw [transcribe_err_retry h1 (by omega), transcribe_err_retry h2 (by omega),
      transcribe_ok h3]
  · rw [attempts_err_retry h1 (by omega), attempts_err_retry h2 (by omega),
      attempts_ok h3]
  · intro g
    have := attempts_le g 1 3
    omega

/-- Witness for `retry_three_attempts` at an API that raises twice and then
answers `"hi"`. -/
theorem retry_three_attempts_witness :
    transcribe_audio_chunk apiFailTwice 1 3 = some "hi" ∧
    transcribe_attempts apiFailTwice 1 3 = 3 := by
  have h := retry_three_attempts apiFailTwice "hi" (by decide) (by decide) (by decide)
  exact ⟨h.1, h.2.1⟩

/-- C5: when every attempt on a chunk raises, the client returns `None`
(it never raises out of the pipeline — the embedding is total), the loop
records the visible failure placeholder at that chunk's position, and every
other chunk is still processed: the result sequence has one entry per
chunk. -/
theorem chunk_failure_recovered (chunks : List ChunkTask) (i : Nat)
    (hi : i < chunks.length) (c : ChunkTask)
    (hc : chunks.getD i dummyChunk = c)
    (hfail : ∀ n, c.api n = ApiResult.err)
    (hsize : c.nbytes ≤ OPENAI_API_FILE_LIMIT_BYTES) :
    transcribe_audio_chunk c.api 1 3 = none ∧
    (transcriptions_list chunks).getD i "" = sentinelFailed i ∧
    (transcriptions_list chunks).length = chunks.length := by
  refine ⟨transcribe_all_err hfail 1 3, ?_, chunkLoopFrom_length 0 chunks⟩
  unfold transcriptions_list
  rw [chunkLoopFrom_getD 0 i chunks hi]
  rw [Nat.zero_add, hc]
  unfold chunkStep
  rw [if_neg (by omega), transcribe_all_err hfail 1 3]

/-- Witness for `chunk_failure_recovered`: a two-chunk run where the first
chunk permanently fails still records both positions. -/
theorem chunk_failure_recovered_witness :
    (transcriptions_list [chunkB, chunkA]).getD 0 "" = sentinelFailed 0 ∧
    (transcriptions_list [chunkB, chunkA]).length = 2 := by
  have h := chunk_failure_recovered [chunkB, chunkA] 0 (by decide) chunkB rfl
    (fun _ => rfl) (by decide)
  exact ⟨h.2.1, h.2.2⟩

/-- C7: invariant — no buffer whose byte size exceeds the API per-request
limit is ever submitted to the transcription client; an oversized chunk is
instead marked failed at its position with the oversize sentinel, and the
rest of the run continues (one recorded entry per chunk). -/
theorem no_oversized_submission (f : UploadedFile)
    (chunks : List ChunkTask) (i : Nat) (hi : i < chunks.length)
    (hover : OPENAI_API_FILE_LIMIT_BYTES < (chunks.getD i dummyChunk).nbytes) :
    (∀ b ∈ (run f).submitted, b ≤ OPENAI_API_FILE_LIMIT_BYTES) ∧
    (transcriptions_list chunks).getD i "" = sentinelTooLarge i ∧
    (chunkStep i (chunks.getD i dummyChunk)).2 = [] ∧
    (transcriptions_list chunks).length = chunks.length := by
  refine ⟨?_, ?_, ?_, chunkLoopFrom_length 0 chunks⟩
  · intro b hb
    unfold run at hb
    by_cases hsz : f.size ≤ OPENAI_API_FILE_LIMIT_BYTES
    · simp only [hsz, if_true] at hb
      simp at hb
      omega
    · simp only [hsz, if_false] at hb
      exact submittedFrom_le 0 f.chunks b (by simpa using hb)
  · unfold transcriptions_list
    rw [chunkLoopFrom_getD 0 i chunks hi, Nat.zero_add]
    unfold chunkStep
    rw [if_pos hover]
  · rw [chunkStep_submitted, if_pos hover]

/-- Witness for `no_oversized_submission`: a run over one oversized chunk
(26 MiB > 25 MiB) submits nothing for it and records the oversize
sentinel. -/
theorem no_oversized_submission_witness :
    (transcriptions_list [⟨26 * 1024 * 1024, apiOkHello⟩]).getD 0 "" =
      sentinelTooLarge 0 ∧
    (chunkStep 0 (⟨26 * 1024 * 1024, apiOkHello⟩ : ChunkTask)).2 = [] := by
  have h := no_oversized_submission ⟨100, apiOkHello, []⟩
    [⟨26 * 1024 * 1024, apiOkHello⟩] 0 (by decide) (by decide)
  exact ⟨h.2.1, h.2.2.1⟩

/-- C9: before every attempt (the first and every retry) the buffer's read
position is reset to the start, so every attempt reads the full buffer from
position 0: each byte sequence read by any attempt equals the whole buffer
content, whatever the starting position was. -/
theorem seek_before_each_attempt (api : Nat → ApiResult) (b : ByteBuffer)
    (attempt max_attempts : Nat) :
    ∀ r ∈ (transcribe_stateful api b attempt max_attempts).2.2, r = b.data := by
  intro r hr
  rw [transcribe_stateful] at hr
  cases hv : api attempt with
  | ok t =>
      rw [hv] at hr
      simp [readAll, seek0] at hr
      exact hr
  | err =>
      rw [hv] at hr
      by_cases hlt : attempt < max_attempts
      · rw [if_pos hlt] at hr
        simp only [readAll, seek0, List.mem_cons] at hr
        rcases hr with h | h
        · simpa using h
        · have := seek_before_each_attempt api
            (readAll (seek0 b)).2 (attempt + 1) max_attempts r h
          simpa [readAll, seek0] using this
      · rw [if_neg hlt] at hr
        simp [readAll, seek0] at hr
        exact hr
termination_by max_attempts - attempt
decreasing_by omega

/-- Witness for `seek_before_each_attempt`: a buffer whose position starts
mid-stream is still read in full by the attempt. -/
theorem seek_before_each_attempt_witness :
    ([1, 2, 3] : List Nat) ∈
      (transcribe_stateful apiOkHello ⟨[1, 2, 3], 2⟩ 1 3).2.2 ∧
    (⟨[1, 2, 3], 2⟩ : ByteBuffer).data = [1, 2, 3] := by
  have hmem : ([1, 2, 3] : List Nat) ∈
      (transcribe_stateful apiOkHello ⟨[1, 2, 3], 2⟩ 1 3).2.2 := by
    rw [transcribe_stateful]
    decide
  have := seek_before_each_attempt apiOkHello ⟨[1, 2, 3], 2⟩ 1 3 [1, 2, 3] hmem
  exact ⟨hmem, by decide⟩

/-- C10: an API call that succeeds with the empty string is handled exactly
like a permanent failure: the chunk loop records the failure placeholder at
that chunk's position (the same entry any chunk with a `None` result gets),
and the direct whole-file path ends in the error branch. -/
theorem empty_text_is_failure (c : ChunkTask) (i : Nat) (f : UploadedFile)
    (hsz : c.nbytes ≤ OPENAI_API_FILE_LIMIT_BYTES)
    (hc : transcribe_audio_chunk c.api 1 3 = some "")
    (hfs : f.size ≤ OPENAI_API_FILE_LIMIT_BYTES)
    (hf : transcribe_audio_chunk f.api 1 3 = some "") :
    (chunkStep i c).1 = sentinelFailed i ∧
    (∀ d : ChunkTask, d.nbytes ≤ OPENAI_API_FILE_LIMIT_BYTES →
      transcribe_audio_chunk d.api 1 3 = none →
      (chunkStep i d).1 = (chunkStep i c).1) ∧
    (run f).final = "" ∧ (run f).result = RunResult.errorEmpty := by
  have hstep : (chunkStep i c).1 = sentinelFailed i := by
    unfold chunkStep
    rw [if_neg (by omega), hc]
    simp
  refine ⟨hstep, ?_, ?_, ?_⟩
  · intro d hd hnone
    rw [hstep]
    unfold chunkStep
    rw [if_neg (by omega), hnone]
  · simp [run, hfs, hf]
  · simp [run, hfs, hf]

/-- Witness for `empty_text_is_failure` at an API answering `""`. -/
theorem empty_text_is_failure_witness :
    (chunkStep 0 ⟨100, apiOkEmpty⟩).1 = sentinelFailed 0 ∧
    (run ⟨100, apiOkEmpty, []⟩).result = RunResult.errorEmpty := by
  have h := empty_text_is_failure ⟨100, apiOkEmpty⟩ 0 ⟨100, apiOkEmpty, []⟩
    (by decide) (transcribe_ok rfl) (by decide) (transcribe_ok rfl)
  exact ⟨h.1, h.2.2.2⟩

/-- C1 counterexample: in the run over chunks [A, B, C] where B permanently
fails, the failed chunk's placeholder is NOT excluded from the join — the
final transcript is `"A [ERROR: CHUNK 2 FAILED TRANSCRIPTION] C"`, not
`"A C"`: `filter(None, ...)` only drops falsy entries and the placeholder is
a non-empty string. -/
theorem join_excludes_placeholder_false :
    full_transcription_chunked [chunkA, chunkB, chunkC] ≠ "A C" ∧
    full_transcription_chunked [chunkA, chunkB, chunkC] =
      "A [ERROR: CHUNK 2 FAILED TRANSCRIPTION] C" := by
  have hA : transcribe_audio_chunk (fun _ => ApiResult.ok "A") 1 3 = some "A" :=
    transcribe_ok rfl
  have hB : transcribe_audio_chunk apiAlwaysErr 1 3 = none :=
    transcribe_all_err (fun _ => rfl) 1 3
  have hC : transcribe_audio_chunk (fun _ => ApiResult.ok "C") 1 3 = some "C" :=
    transcribe_ok rfl
  have hfull : full_transcription_chunked [chunkA, chunkB, chunkC] =
      "A [ERROR: CHUNK 2 FAILED TRANSCRIPTION] C" := by
    simp only [full_transcription_chunked, transcriptions_list, chunkLoopFrom,
      chunkStep, chunkA, chunkB, chunkC, hA, hB, hC,
      OPENAI_API_FILE_LIMIT_BYTES, OPENAI_API_FILE_LIMIT_MB, sentinelFailed]
    decide
  refine ⟨?_, hfull⟩
  rw [hfull]
  decide

/-- C1 amended: the final transcript is the space-join, in chunk-index
order, of ALL recorded entries — successful texts and failure placeholders
alike.  Every recorded entry is non-empty (a truthy text or a sentinel), so
`filter(None, ...)` drops nothing; each chunk keeps its position and the
sequence has one entry per chunk. -/
theorem join_keeps_placeholder (chunks : List ChunkTask) :
    (∀ s ∈ transcriptions_list chunks, s ≠ "") ∧
    full_transcription_chunked chunks =
      String.intercalate " " (transcriptions_list chunks) ∧
    (transcriptions_list chunks).length = chunks.length ∧
    (∀ j, j < chunks.length →
      (transcriptions_list chunks).getD j "" =
        (chunkStep j (chunks.getD j dummyChunk)).1) := by
  refine ⟨transcriptions_ne_empty chunks, full_transcription_chunked_eq chunks,
    chunkLoopFrom_length 0 chunks, ?_⟩
  intro j hj
  unfold transcriptions_list
  rw [chunkLoopFrom_getD 0 j chunks hj, Nat.zero_add]

/-- Witness for `join_keeps_placeholder` on a concrete two-chunk run. -/
theorem join_keeps_placeholder_witness :
    full_transcription_chunked [chunkA, chunkB] =
      String.intercalate " " (transcriptions_list [chunkA, chunkB]) ∧
    (transcriptions_list [chunkA, chunkB]).getD 1 "" =
      (chunkStep 1 (([chunkA, chunkB] : List ChunkTask).getD 1 dummyChunk)).1 := by
  have h := join_keeps_placeholder [chunkA, chunkB]
  exact ⟨h.2.1, h.2.2.2 1 (by decide)⟩

/-- A chunk whose export is just over the 24 MiB target but under the
25 MiB API limit, and whose transcription succeeds with `"A"`. -/
def chunkMid : ChunkTask := ⟨TARGET_CHUNK_SIZE_BYTES + 1, fun _ => ApiResult.ok "A"⟩

/-- A chunk whose export exceeds the 25 MiB API limit. -/
def chunkHuge : ChunkTask := ⟨OPENAI_API_FILE_LIMIT_BYTES + 1, apiOkHello⟩

/-- C6 counterexample: a slice whose byte size exceeds the 24 MiB target
ceiling (`TARGET_CHUNK_SIZE_BYTES`) is NOT marked oversized: the loop guard
compares against `OPENAI_API_FILE_LIMIT_BYTES` (25 MiB), so this slice is
submitted and its text recorded. -/
theorem oversized_mark_at_target_false :
    TARGET_CHUNK_SIZE_BYTES < chunkMid.nbytes ∧
    (chunkStep 0 chunkMid).1 = "A" ∧
    (chunkStep 0 chunkMid).2 = [TARGET_CHUNK_SIZE_BYTES + 1] := by
  have hA : transcribe_audio_chunk (fun _ => ApiResult.ok "A") 1 3 = some "A" :=
    transcribe_ok rfl
  refine ⟨by decide, ?_, ?_⟩ <;>
    simp [chunkStep, chunkMid, hA, TARGET_CHUNK_SIZE_BYTES,
      OPENAI_API_FILE_LIMIT_BYTES, OPENAI_API_FILE_LIMIT_MB]

/-- C6 amended: a slice is skipped (nothing submitted) if and only if its
byte size exceeds `OPENAI_API_FILE_LIMIT_BYTES` — the 25 MiB API limit, not
the 24 MiB `TARGET_CHUNK_SIZE_BYTES` target, which the guard never uses;
an oversized slice gets the oversize sentinel recorded at its position and
there is no recursive re-splitting (the chunk is simply skipped). -/
theorem oversized_iff_api_limit (i : Nat) (c : ChunkTask) :
    ((chunkStep i c).2 =
      if OPENAI_API_FILE_LIMIT_BYTES < c.nbytes then [] else [c.nbytes]) ∧
    (OPENAI_API_FILE_LIMIT_BYTES < c.nbytes →
      (chunkStep i c).1 = sentinelTooLarge i ∧ (chunkStep i c).2 = []) ∧
    TARGET_CHUNK_SIZE_BYTES = 24 * 1024 * 1024 ∧
    OPENAI_API_FILE_LIMIT_BYTES = 25 * 1024 * 1024 := by
  refine ⟨chunkStep_submitted i c, ?_, by decide, by decide⟩
  intro hover
  constructor
  · unfold chunkStep
    rw [if_pos hover]
  · rw [chunkStep_submitted, if_pos hover]

/-- Witness for `oversized_iff_api_limit` at a chunk one byte over the API
limit. -/
theorem oversized_iff_api_limit_witness :
    (chunkStep 0 chunkHuge).1 = sentinelTooLarge 0 ∧
    (chunkStep 0 chunkHuge).2 = [] :=
  (oversized_iff_api_limit 0 chunkHuge).2.1 (by decide)

/-- An over-limit upload whose only chunk permanently fails. -/
def allFailFile : UploadedFile :=
  ⟨OPENAI_API_FILE_LIMIT_BYTES + 1, apiAlwaysErr, [chunkB]⟩

/-- C8 counterexample: a chunked run in which ALL chunks permanently fail
does not end in the error branch — the join of the (non-empty) failure
placeholders is returned as a successful transcript. -/
theorem empty_escalation_false :
    (run allFailFile).result =
      RunResult.success "[ERROR: CHUNK 1 FAILED TRANSCRIPTION]" ∧
    (run allFailFile).final ≠ "" := by
  have hB : transcribe_audio_chunk apiAlwaysErr 1 3 = none :=
    transcribe_all_err (fun _ => rfl) 1 3
  have hfull : full_transcription_chunked [chunkB] =
      "[ERROR: CHUNK 1 FAILED TRANSCRIPTION]" := by
    simp only [full_transcription_chunked, transcriptions_list, chunkLoopFrom,
      chunkStep, chunkB, hB, OPENAI_API_FILE_LIMIT_BYTES,
      OPENAI_API_FILE_LIMIT_MB, sentinelFailed]
    decide
  constructor
  · simp [run, allFailFile, OPENAI_API_FILE_LIMIT_BYTES,
      OPENAI_API_FILE_LIMIT_MB, hfull]
  · simp [run, allFailFile, OPENAI_API_FILE_LIMIT_BYTES,
      OPENAI_API_FILE_LIMIT_MB, hfull]

/-- C8 amended: the error branch is taken exactly when `full_transcription`
is empty, and a non-empty final string is returned as success; but on the
chunked path with at least one chunk the final string is never empty — even
when all chunks fail it is the non-empty join of their placeholders — so an
empty final result can only come from the direct path (failed or empty
direct call) or an empty chunk sequence. -/
theorem empty_final_escalated (f : UploadedFile) :
    ((run f).result = RunResult.errorEmpty ↔ (run f).final = "") ∧
    ((run f).final ≠ "" → (run f).result = RunResult.success (run f).final) ∧
    (OPENAI_API_FILE_LIMIT_BYTES < f.size → f.chunks ≠ [] →
      (run f).final ≠ "") := by
  have hres : (run f).result =
      if (run f).final = "" then RunResult.errorEmpty
      else RunResult.success (run f).final := rfl
  refine ⟨?_, ?_, ?_⟩
  · rw [hres]
    by_cases h : (run f).final = "" <;> simp [h]
  · intro h
    rw [hres, if_neg h]
  · intro hsz hne
    have hfin : (run f).final = full_transcription_chunked f.chunks := by
      unfold run
      rw [if_neg (by omega)]
    rw [hfin]
    exact full_transcription_chunked_ne_empty f.chunks hne

/-- Witness for `empty_final_escalated`: the all-fail chunked run has a
non-empty final string. -/
theorem empty_final_escalated_witness : (run allFailFile).final ≠ "" :=
  (empty_final_escalated allFailFile).2.2 (by decide) (List.cons_ne_nil chunkB [])

end TranscribeMP3
